import Mathlib

/-!
Verification of the cityseer core kernels against their specification.

The repository ships the test-suite for the core kernels but not the kernel
modules themselves (cityseer.algos.data, cityseer.algos.diversity,
cityseer.metrics.layers, cityseer.util.graphs).  Every definition below is
therefore modelled from the specification document, faithful to its words,
and the theorems settle the spec's claims against these models.

Numeric conventions of the embedding:
- coordinates, radii and distance thresholds are exact integers; every mock
  coordinate and radius exercised by the test-suite is integral, and all
  branch decisions of the kernels are ring-and-order operations, so the
  integer embedding decides every branch exactly as exact real arithmetic
  would;
- true Euclidean distances (square roots) appear in theorem statements as
  real numbers via Real.sqrt; the kernels compare squared distances, which
  is order-isomorphic on nonnegative reals;
- the float value NaN used by the reference as an out-of-band marker is
  modelled by Option.none, and +inf by the top element of WithTop.
-/

/-- Squared Euclidean distance between two points of the projected plane. -/
def sq_dist (px py qx qy : ℤ) : ℤ :=
  (px - qx) * (px - qx) + (py - qy) * (py - qy)

/-- True Euclidean distance between two points of the projected plane. -/
noncomputable def euclid_dist (px py qx qy : ℤ) : ℝ :=
  Real.sqrt ((sq_dist px py qx qy : ℤ) : ℝ)

/-- Predicate deciding whether point i of the packed coordinate arrays lies
within max_dist of the source; the comparison is taken on squared distances. -/
def radial_keep (src_x src_y : ℤ) (x_arr y_arr : List ℤ) (max_dist : ℤ)
    (i : ℕ) : Bool :=
  decide (sq_dist src_x src_y (x_arr.getD i 0) (y_arr.getD i 0) ≤ max_dist * max_dist)

/-- Modelled from the spec: data.radial_filter (section 4.2; the module
cityseer.algos.data is absent from the sources).  Given source coordinates,
packed coordinate arrays and a radius, produce the pair
(trim_to_full, full_to_trim): trim_to_full lists the indices of the points
within the radius in ascending order, and full_to_trim maps a full index to
its trimmed index, or none (NaN in the reference) when the point lies
strictly outside the radius. -/
def radial_filter (src_x src_y : ℤ) (x_arr y_arr : List ℤ) (max_dist : ℤ) :
    List ℕ × List (Option ℕ) :=
  ((List.range x_arr.length).filter (radial_keep src_x src_y x_arr y_arr max_dist),
   (List.range x_arr.length).map (fun i =>
     if radial_keep src_x src_y x_arr y_arr max_dist i then
       some ((List.range i).filter (radial_keep src_x src_y x_arr y_arr max_dist)).length
     else none))

lemma filter_getD_take {α : Type} (p : α → Bool) (d : α) :
    ∀ (l : List α) (k : ℕ), ∀ hk : k < l.length, p (l.get ⟨k, hk⟩) = true →
      (l.filter p).getD ((l.take k).filter p).length d = l.get ⟨k, hk⟩ := by
  intro l
  induction l with
  | nil => intro k hk; simp at hk
  | cons a t ih =>
    intro k hk hp
    cases k with
    | zero =>
      simp only [List.take_zero, List.filter_nil, List.length_nil, List.get] at *
      simp [List.filter_cons, hp]
    | succ k =>
      have hk' : k < t.length := Nat.lt_of_succ_lt_succ hk
      have hget : (a :: t).get ⟨k + 1, hk⟩ = t.get ⟨k, hk'⟩ := rfl
      rw [hget] at hp ⊢
      rw [List.take_succ_cons, List.filter_cons, List.filter_cons]
      by_cases hpa : p a = true
      · simp only [if_pos hpa, List.length_cons, List.getD_cons_succ]
        exact ih k hk' hp
      · simp only [if_neg hpa]
        exact ih k hk' hp

lemma radial_filter_full_to_trim_entry (src_x src_y : ℤ) (x_arr y_arr : List ℤ)
    (max_dist : ℤ) (i : ℕ) (hi : i < x_arr.length) :
    ((radial_filter src_x src_y x_arr y_arr max_dist).2).getD i none =
      (if radial_keep src_x src_y x_arr y_arr max_dist i then
        some ((List.range i).filter (radial_keep src_x src_y x_arr y_arr max_dist)).length
      else none) := by
  unfold radial_filter
  rw [List.getD_eq_getElem?_getD, List.getElem?_map, List.getElem?_range hi]
  rfl

/-- C3: whenever full_to_trim holds a finite entry j at index i, trim_to_full
recovers i at position j, and the length of trim_to_full equals the number of
finite entries of full_to_trim. -/
theorem radial_filter_trim_maps (src_x src_y : ℤ) (x_arr y_arr : List ℤ)
    (max_dist : ℤ) (i j : ℕ)
    (h : ((radial_filter src_x src_y x_arr y_arr max_dist).2).getD i none = some j) :
    ((radial_filter src_x src_y x_arr y_arr max_dist).1).getD j 0 = i ∧
    ((radial_filter src_x src_y x_arr y_arr max_dist).1).length =
      ((radial_filter src_x src_y x_arr y_arr max_dist).2).countP Option.isSome := by
  have hi : i < x_arr.length := by
    by_contra hlt
    push_neg at hlt
    have hnone : ((radial_filter src_x src_y x_arr y_arr max_dist).2).getD i none = none := by
      unfold radial_filter
      rw [List.getD_eq_getElem?_getD]
      have : ((List.range x_arr.length).map (fun i =>
          if radial_keep src_x src_y x_arr y_arr max_dist i then
            some ((List.range i).filter (radial_keep src_x src_y x_arr y_arr max_dist)).length
          else none))[i]? = none := by
        apply List.getElem?_eq_none
        simpa using hlt
      rw [this]
      rfl
    rw [hnone] at h
    exact Option.noConfusion h
  rw [radial_filter_full_to_trim_entry src_x src_y x_arr y_arr max_dist i hi] at h
  constructor
  · by_cases hk : radial_keep src_x src_y x_arr y_arr max_dist i = true
    · rw [if_pos hk] at h
      have hj : j = ((List.range i).filter (radial_keep src_x src_y x_arr y_arr max_dist)).length :=
        (Option.some_inj.mp h).symm
      subst hj
      have htake : (List.range x_arr.length).take i = List.range i := by
        rw [List.take_range, min_eq_left (Nat.le_of_lt hi)]
      have hrl : i < (List.range x_arr.length).length := by simpa using hi
      have hget : (List.range x_arr.length).get ⟨i, hrl⟩ = i := by
        simp [List.getElem_range]
      have := filter_getD_take (radial_keep src_x src_y x_arr y_arr max_dist) 0
        (List.range x_arr.length) i hrl (by rw [hget]; exact hk)
      rw [htake, hget] at this
      exact this
    · rw [if_neg hk] at h
      exact Option.noConfusion h
  · unfold radial_filter
    rw [List.countP_map]
    apply Eq.symm
    rw [List.countP_eq_length_filter]
    congr 1
    apply List.filter_congr
    intro a _
    by_cases hka : radial_keep src_x src_y x_arr y_arr max_dist a = true
    · simp [Function.comp, hka]
    · simp [Function.comp, hka]

theorem radial_filter_trim_maps_witness :
    ((radial_filter 0 0 [0, 9] [0, 0] 1).2).getD 0 none = some 0 ∧
    (((radial_filter 0 0 [0, 9] [0, 0] 1).1).getD 0 0 = 0 ∧
     ((radial_filter 0 0 [0, 9] [0, 0] 1).1).length =
       ((radial_filter 0 0 [0, 9] [0, 0] 1).2).countP Option.isSome) :=
  ⟨by decide, radial_filter_trim_maps 0 0 [0, 9] [0, 0] 1 0 0 (by decide)⟩

lemma euclid_dist_le_iff (px py qx qy r : ℤ) (hr : 0 ≤ r) :
    euclid_dist px py qx qy ≤ (r : ℝ) ↔ sq_dist px py qx qy ≤ r * r := by
  unfold euclid_dist
  rw [Real.sqrt_le_iff]
  have hcast : ((sq_dist px py qx qy : ℤ) : ℝ) ≤ (r : ℝ) ^ 2 ↔
      sq_dist px py qx qy ≤ r * r := by
    rw [show ((r : ℝ)) ^ 2 = ((r * r : ℤ) : ℝ) by push_cast; ring]
    exact_mod_cast Iff.rfl
  constructor
  · rintro ⟨-, hle⟩
    exact hcast.mp hle
  · intro hle
    exact ⟨by exact_mod_cast hr, hcast.mpr hle⟩

/-- C5: a point receives a finite full_to_trim entry exactly when its
Euclidean distance from the source on the projected plane is at most
max_dist, and every point strictly farther than max_dist is marked none
(NaN in the reference). -/
theorem radial_filter_radius (src_x src_y : ℤ) (x_arr y_arr : List ℤ)
    (max_dist : ℤ) (hr : 0 ≤ max_dist) (i : ℕ) (hi : i < x_arr.length) :
    ((((radial_filter src_x src_y x_arr y_arr max_dist).2).getD i none).isSome = true ↔
      euclid_dist src_x src_y (x_arr.getD i 0) (y_arr.getD i 0) ≤ (max_dist : ℝ)) ∧
    (((radial_filter src_x src_y x_arr y_arr max_dist).2).getD i none = none →
      (max_dist : ℝ) < euclid_dist src_x src_y (x_arr.getD i 0) (y_arr.getD i 0)) := by
  rw [radial_filter_full_to_trim_entry src_x src_y x_arr y_arr max_dist i hi]
  have hiff : radial_keep src_x src_y x_arr y_arr max_dist i = true ↔
      euclid_dist src_x src_y (x_arr.getD i 0) (y_arr.getD i 0) ≤ (max_dist : ℝ) := by
    unfold radial_keep
    rw [decide_eq_true_eq]
    exact (euclid_dist_le_iff src_x src_y (x_arr.getD i 0) (y_arr.getD i 0) max_dist hr).symm
  constructor
  · by_cases hk : radial_keep src_x src_y x_arr y_arr max_dist i = true
    · simp only [if_pos hk, Option.isSome_some]
      exact ⟨fun _ => hiff.mp hk, fun _ => trivial⟩
    · simp only [if_neg hk, Option.isSome_none]
      constructor
      · intro hfalse; exact absurd hfalse (by simp)
      · intro hle; exact absurd (hiff.mpr hle) hk
  · intro hnone
    by_cases hk : radial_keep src_x src_y x_arr y_arr max_dist i = true
    · rw [if_pos hk] at hnone; exact Option.noConfusion hnone
    · have : ¬ euclid_dist src_x src_y (x_arr.getD i 0) (y_arr.getD i 0) ≤ (max_dist : ℝ) :=
        fun hle => hk (hiff.mpr hle)
      exact lt_of_not_le this

theorem radial_filter_radius_witness :
    (0 : ℤ) ≤ 1 ∧ 0 < [(0 : ℤ), 9].length ∧
    (((((radial_filter 0 0 [0, 9] [0, 0] 1).2).getD 0 none).isSome = true ↔
      euclid_dist 0 0 ([(0 : ℤ), 9].getD 0 0) ([(0 : ℤ), 0].getD 0 0) ≤ ((1 : ℤ) : ℝ)) ∧
     (((radial_filter 0 0 [0, 9] [0, 0] 1).2).getD 0 none = none →
      ((1 : ℤ) : ℝ) < euclid_dist 0 0 ([(0 : ℤ), 9].getD 0 0) ([(0 : ℤ), 0].getD 0 0))) :=
  ⟨by decide, by decide, radial_filter_radius 0 0 [0, 9] [0, 0] 1 (by decide) 0 (by decide)⟩

/-- Nonnegativity of the squared distance. -/
lemma sq_dist_nonneg (px py qx qy : ℤ) : 0 ≤ sq_dist px py qx qy :=
  add_nonneg (mul_self_nonneg _) (mul_self_nonneg _)

lemma sqrt_cast_le_iff (a b : ℤ) (hb : 0 ≤ b) :
    Real.sqrt ((a : ℤ) : ℝ) ≤ Real.sqrt ((b : ℤ) : ℝ) ↔ a ≤ b := by
  rw [Real.sqrt_le_sqrt_iff (by exact_mod_cast hb)]
  exact_mod_cast Iff.rfl

lemma sqrt_cast_lt_iff (a b : ℤ) (ha : 0 ≤ a) :
    Real.sqrt ((a : ℤ) : ℝ) < Real.sqrt ((b : ℤ) : ℝ) ↔ a < b := by
  rw [Real.sqrt_lt_sqrt_iff (by exact_mod_cast ha)]
  exact_mod_cast Iff.rfl

/-- One step of the nearest-node scan: point pt at full index i challenges the
current best candidate; it wins when it lies within the maximum squared
distance and strictly improves on the best squared distance found so far, so
that the earliest index wins ties. -/
def nearest_step (px py maxd2 : ℤ) (i : ℕ) (pt : ℤ × ℤ) (best : Int × Option ℤ) :
    Int × Option ℤ :=
  if sq_dist px py pt.1 pt.2 ≤ maxd2 ∧ ∀ b ∈ best.2, sq_dist px py pt.1 pt.2 < b then
    ((i : Int), some (sq_dist px py pt.1 pt.2))
  else best

/-- Scan of the remaining points, carrying the index of the next point and the
best candidate found so far. -/
def nearest_scan (px py maxd2 : ℤ) : List (ℤ × ℤ) → ℕ → Int × Option ℤ → Int × Option ℤ
  | [], _, best => best
  | pt :: rest, i, best =>
      nearest_scan px py maxd2 rest (i + 1) (nearest_step px py maxd2 i pt best)

/-- Modelled from the spec: data.nearest_idx (section 4.3; the module
cityseer.algos.data is absent from the sources).  Returns the pair
(idx, dist) of the nearest node within max_dist, or (-1, none) when no node
lies within max_dist; equal distances resolve to the lowest index.  The
returned dist is carried as a squared distance, the order-isomorphic encoding
used throughout this embedding, with none standing for +inf. -/
def nearest_idx (px py : ℤ) (x_arr y_arr : List ℤ) (max_dist : ℤ) : Int × Option ℤ :=
  nearest_scan px py (max_dist * max_dist) (x_arr.zip y_arr) 0 (-1, none)

/-- Invariant of the nearest scan relative to the points already seen. -/
def scan_good (px py maxd2 : ℤ) (seen : List (ℤ × ℤ)) (best : Int × Option ℤ) : Prop :=
  (best.2 = none → best.1 = -1 ∧ ∀ pt ∈ seen, maxd2 < sq_dist px py pt.1 pt.2) ∧
  (∀ b, best.2 = some b → ∃ k, ∃ hk : k < seen.length,
      best.1 = (k : Int) ∧
      b = sq_dist px py (seen.get ⟨k, hk⟩).1 (seen.get ⟨k, hk⟩).2 ∧
      b ≤ maxd2 ∧
      (∀ pt ∈ seen, sq_dist px py pt.1 pt.2 ≤ maxd2 → b ≤ sq_dist px py pt.1 pt.2) ∧
      (∀ j, ∀ hj : j < seen.length, j < k →
        sq_dist px py (seen.get ⟨j, hj⟩).1 (seen.get ⟨j, hj⟩).2 ≤ maxd2 →
        b < sq_dist px py (seen.get ⟨j, hj⟩).1 (seen.get ⟨j, hj⟩).2)) ∧
  (∀ b, best.2 = some b → 0 ≤ b)

lemma nearest_step_good (px py maxd2 : ℤ) (seen : List (ℤ × ℤ)) (pt : ℤ × ℤ)
    (best : Int × Option ℤ) (hgood : scan_good px py maxd2 seen best) :
    scan_good px py maxd2 (seen ++ [pt]) (nearest_step px py maxd2 seen.length pt best) := by
  obtain ⟨hnone, hsome, hnn⟩ := hgood
  have hlastget : ∀ h : seen.length < (seen ++ [pt]).length,
      (seen ++ [pt]).get ⟨seen.length, h⟩ = pt := by
    intro h
    have h2 := @List.getElem_append_right _ seen [pt] seen.length (le_refl seen.length) h
    simp only [Nat.sub_self, List.getElem_cons_zero, List.get_eq_getElem] at h2 ⊢
    exact h2
  have hseenget : ∀ (j : ℕ) (hj : j < seen.length) (hj2 : j < (seen ++ [pt]).length),
      (seen ++ [pt]).get ⟨j, hj2⟩ = seen.get ⟨j, hj⟩ := by
    intro j hj hj2
    have := @List.getElem_append_left _ j seen [pt] hj hj2
    simpa using this
  have hmem : ∀ q ∈ seen ++ [pt], q ∈ seen ∨ q = pt := by
    intro q hq
    rcases List.mem_append.mp hq with h | h
    · exact Or.inl h
    · exact Or.inr (List.mem_singleton.mp h)
  unfold nearest_step
  by_cases hd : sq_dist px py pt.1 pt.2 ≤ maxd2
  · rcases hb2 : best.2 with _ | b
    · -- best was empty: pt becomes the candidate
      have hball : ∀ b ∈ (none : Option ℤ), sq_dist px py pt.1 pt.2 < b := by
        intro c hc
        exact absurd hc (by simp)
      rw [if_pos ⟨hd, hball⟩]
      refine ⟨?_, ?_, ?_⟩
      · intro hcontra; exact Option.noConfusion hcontra
      · intro b hb
        have hbeq : sq_dist px py pt.1 pt.2 = b := Option.some_inj.mp hb
        have hlen : seen.length < (seen ++ [pt]).length := by simp
        refine ⟨seen.length, hlen, rfl, ?_, ?_, ?_, ?_⟩
        · rw [hlastget hlen, hbeq]
        · rw [← hbeq]; exact hd
        · intro q hq hqle
          rcases hmem q hq with hqs | hqe
          · exact absurd hqle (not_le.mpr ((hnone hb2).2 q hqs))
          · rw [← hbeq, hqe]
        · intro j hj hjk hle
          have hjseen : j < seen.length := hjk
          rw [hseenget j hjseen hj] at hle
          exact absurd hle (not_le.mpr ((hnone hb2).2 _ (List.get_mem seen _ _)))
      · intro b hb
        rw [← Option.some_inj.mp hb]
        exact sq_dist_nonneg px py pt.1 pt.2
    · -- best already holds a candidate with squared distance b
      by_cases himp : sq_dist px py pt.1 pt.2 < b
      · have hball : ∀ c ∈ some b, sq_dist px py pt.1 pt.2 < c := by
          intro c hc
          have hbc : b = c := by simpa using hc
          rw [← hbc]; exact himp
        rw [if_pos ⟨hd, hball⟩]
        obtain ⟨k0, hk0, hidx0, hbeq0, hble0, hmin0, hstrict0⟩ := hsome b hb2
        refine ⟨?_, ?_, ?_⟩
        · intro hcontra; exact Option.noConfusion hcontra
        · intro c hc
          have hceq : sq_dist px py pt.1 pt.2 = c := Option.some_inj.mp hc
          have hlen : seen.length < (seen ++ [pt]).length := by simp
          refine ⟨seen.length, hlen, rfl, ?_, ?_, ?_, ?_⟩
          · rw [hlastget hlen, hceq]
          · rw [← hceq]; exact hd
          · intro q hq hqle
            rcases hmem q hq with hqs | hqe
            · rw [← hceq]
              exact le_trans (le_of_lt himp) (hmin0 q hqs hqle)
            · rw [← hceq, hqe]
          · intro j hj hjk hle
            have hjseen : j < seen.length := hjk
            rw [hseenget j hjseen hj] at hle ⊢
            rw [← hceq]
            exact lt_of_lt_of_le himp (hmin0 _ (List.get_mem seen _ _) hle)
        · intro c hc
          rw [← Option.some_inj.mp hc]
          exact sq_dist_nonneg px py pt.1 pt.2
      · have hnball : ¬ (sq_dist px py pt.1 pt.2 ≤ maxd2 ∧
            ∀ c ∈ some b, sq_dist px py pt.1 pt.2 < c) := by
          rintro ⟨-, hball⟩
          exact himp (hball b rfl)
        rw [if_neg hnball]
        obtain ⟨k0, hk0, hidx0, hbeq0, hble0, hmin0, hstrict0⟩ := hsome b hb2
        refine ⟨?_, ?_, ?_⟩
        · intro hcontra; rw [hb2] at hcontra; exact Option.noConfusion hcontra
        · intro c hc
          rw [hb2] at hc
          have hceq : b = c := Option.some_inj.mp hc
          subst hceq
          have hk0' : k0 < (seen ++ [pt]).length := by
            simp only [List.length_append, List.length_cons, List.length_nil]
            exact Nat.lt_succ_of_lt hk0
          refine ⟨k0, hk0', hidx0, ?_, hble0, ?_, ?_⟩
          · rw [hseenget k0 hk0 hk0']; exact hbeq0
          · intro q hq hqle
            rcases hmem q hq with hqs | hqe
            · exact hmin0 q hqs hqle
            · rw [hqe]; exact not_lt.mp himp
          · intro j hj hjk hle
            have hjseen : j < seen.length := lt_trans hjk hk0
            rw [hseenget j hjseen hj] at hle ⊢
            exact hstrict0 j hjseen hjk hle
        · exact hnn
  · have hnball : ¬ (sq_dist px py pt.1 pt.2 ≤ maxd2 ∧
        ∀ c ∈ best.2, sq_dist px py pt.1 pt.2 < c) := fun hcon => hd hcon.1
    rw [if_neg hnball]
    refine ⟨?_, ?_, ?_⟩
    · intro hb2
      refine ⟨(hnone hb2).1, ?_⟩
      intro q hq
      rcases hmem q hq with hqs | hqe
      · exact (hnone hb2).2 q hqs
      · rw [hqe]; exact not_le.mp hd
    · intro b hb
      obtain ⟨k0, hk0, hidx0, hbeq0, hble0, hmin0, hstrict0⟩ := hsome b hb
      have hk0' : k0 < (seen ++ [pt]).length := by
        simp only [List.length_append, List.length_cons, List.length_nil]
        exact Nat.lt_succ_of_lt hk0
      refine ⟨k0, hk0', hidx0, ?_, hble0, ?_, ?_⟩
      · rw [hseenget k0 hk0 hk0']; exact hbeq0
      · intro q hq hqle
        rcases hmem q hq with hqs | hqe
        · exact hmin0 q hqs hqle
        · rw [hqe] at hqle; exact absurd hqle hd
      · intro j hj hjk hle
        have hjseen : j < seen.length := lt_trans hjk hk0
        rw [hseenget j hjseen hj] at hle ⊢
        exact hstrict0 j hjseen hjk hle
    · exact hnn

lemma nearest_scan_good (px py maxd2 : ℤ) :
    ∀ (pts seen : List (ℤ × ℤ)) (best : Int × Option ℤ),
      scan_good px py maxd2 seen best →
      scan_good px py maxd2 (seen ++ pts) (nearest_scan px py maxd2 pts seen.length best) := by
  intro pts
  induction pts with
  | nil =>
    intro seen best hgood
    simpa [nearest_scan] using hgood
  | cons pt rest ih =>
    intro seen best hgood
    have hstep := nearest_step_good px py maxd2 seen pt best hgood
    have := ih (seen ++ [pt]) (nearest_step px py maxd2 seen.length pt best) hstep
    rw [List.length_append, List.length_cons, List.length_nil] at this
    simpa [nearest_scan, List.append_assoc] using this

lemma zip_get_pair (x_arr y_arr : List ℤ) (hlen : x_arr.length = y_arr.length)
    (j : ℕ) (hj : j < x_arr.length) :
    ∃ hj2 : j < (x_arr.zip y_arr).length,
      (x_arr.zip y_arr).get ⟨j, hj2⟩ = (x_arr.getD j 0, y_arr.getD j 0) := by
  have hj2 : j < (x_arr.zip y_arr).length := by
    rw [List.length_zip, ← hlen, min_self]
    exact hj
  refine ⟨hj2, ?_⟩
  have hjy : j < y_arr.length := hlen ▸ hj
  have hx : x_arr.getD j 0 = x_arr.get ⟨j, hj⟩ := by
    rw [List.getD_eq_getElem?_getD, List.getElem?_eq_getElem hj]
    rfl
  have hy : y_arr.getD j 0 = y_arr.get ⟨j, hjy⟩ := by
    rw [List.getD_eq_getElem?_getD, List.getElem?_eq_getElem hjy]
    rfl
  rw [hx, hy]
  simp [List.get_eq_getElem, List.getElem_zip]

/-- C6: nearest_idx returns the index and Euclidean distance of the closest
node lying within max_dist of the query point, ties resolved to the lowest
node index, and the none (+inf) marker with index -1 when no node lies within
max_dist.  The returned squared distance determines the Euclidean distance
through the square root. -/
theorem nearest_idx_spec (px py : ℤ) (x_arr y_arr : List ℤ) (max_dist : ℤ)
    (hlen : x_arr.length = y_arr.length) (hmd : 0 ≤ max_dist) :
    ((nearest_idx px py x_arr y_arr max_dist).2 = none →
       (nearest_idx px py x_arr y_arr max_dist).1 = -1 ∧
       ∀ i, i < x_arr.length →
         (max_dist : ℝ) < euclid_dist px py (x_arr.getD i 0) (y_arr.getD i 0)) ∧
    (∀ b, (nearest_idx px py x_arr y_arr max_dist).2 = some b →
       ∃ k, k < x_arr.length ∧ (nearest_idx px py x_arr y_arr max_dist).1 = (k : Int) ∧
         Real.sqrt ((b : ℤ) : ℝ) = euclid_dist px py (x_arr.getD k 0) (y_arr.getD k 0) ∧
         euclid_dist px py (x_arr.getD k 0) (y_arr.getD k 0) ≤ (max_dist : ℝ) ∧
         (∀ j, j < x_arr.length →
            euclid_dist px py (x_arr.getD j 0) (y_arr.getD j 0) ≤ (max_dist : ℝ) →
            euclid_dist px py (x_arr.getD k 0) (y_arr.getD k 0) ≤
              euclid_dist px py (x_arr.getD j 0) (y_arr.getD j 0)) ∧
         (∀ j, j < k →
            euclid_dist px py (x_arr.getD j 0) (y_arr.getD j 0) ≤ (max_dist : ℝ) →
            euclid_dist px py (x_arr.getD k 0) (y_arr.getD k 0) <
              euclid_dist px py (x_arr.getD j 0) (y_arr.getD j 0))) := by
  have hinit : scan_good px py (max_dist * max_dist) [] (-1, none) := by
    refine ⟨fun _ => ⟨rfl, by simp⟩, ?_, ?_⟩
    · intro b hb; exact Option.noConfusion hb
    · intro b hb; exact Option.noConfusion hb
  have hmain := nearest_scan_good px py (max_dist * max_dist)
    (x_arr.zip y_arr) [] (-1, none) hinit
  simp only [List.nil_append, List.length_nil] at hmain
  have hres : nearest_idx px py x_arr y_arr max_dist =
      nearest_scan px py (max_dist * max_dist) (x_arr.zip y_arr) 0 (-1, none) := rfl
  rw [← hres] at hmain
  obtain ⟨hnone, hsome, hnn⟩ := hmain
  have hptslen : (x_arr.zip y_arr).length = x_arr.length := by
    rw [List.length_zip, ← hlen, min_self]
  have hsq_of_pair : ∀ j (hj : j < x_arr.length) (hj2 : j < (x_arr.zip y_arr).length),
      sq_dist px py ((x_arr.zip y_arr).get ⟨j, hj2⟩).1 ((x_arr.zip y_arr).get ⟨j, hj2⟩).2 =
        sq_dist px py (x_arr.getD j 0) (y_arr.getD j 0) := by
    intro j hj hj2
    obtain ⟨hj2', hpair⟩ := zip_get_pair x_arr y_arr hlen j hj
    rw [hpair]
  constructor
  · intro h2
    obtain ⟨hidx, hfar⟩ := hnone h2
    refine ⟨hidx, ?_⟩
    intro i hi
    obtain ⟨hi2, hpair⟩ := zip_get_pair x_arr y_arr hlen i hi
    have := hfar ((x_arr.zip y_arr).get ⟨i, hi2⟩) (List.get_mem _ _ _)
    rw [hpair] at this
    have hnotle : ¬ euclid_dist px py (x_arr.getD i 0) (y_arr.getD i 0) ≤ (max_dist : ℝ) := by
      rw [euclid_dist_le_iff px py (x_arr.getD i 0) (y_arr.getD i 0) max_dist hmd]
      exact not_le.mpr this
    exact lt_of_not_le hnotle
  · intro b hb
    obtain ⟨k, hk, hidx, hbeq, hble, hmin, hstrict⟩ := hsome b hb
    have hbnn : 0 ≤ b := hnn b hb
    have hkx : k < x_arr.length := hptslen ▸ hk
    obtain ⟨hk2, hkpair⟩ := zip_get_pair x_arr y_arr hlen k hkx
    have hbeq' : b = sq_dist px py (x_arr.getD k 0) (y_arr.getD k 0) := by
      rw [hbeq]
      exact hsq_of_pair k hkx hk
    refine ⟨k, hkx, hidx, ?_, ?_, ?_, ?_⟩
    · rw [hbeq']; rfl
    · rw [euclid_dist_le_iff px py (x_arr.getD k 0) (y_arr.getD k 0) max_dist hmd, ← hbeq']
      exact hble
    · intro j hj hjle
      obtain ⟨hj2, hjpair⟩ := zip_get_pair x_arr y_arr hlen j hj
      have hjle' : sq_dist px py (x_arr.getD j 0) (y_arr.getD j 0) ≤ max_dist * max_dist :=
        (euclid_dist_le_iff px py (x_arr.getD j 0) (y_arr.getD j 0) max_dist hmd).mp hjle
      have := hmin ((x_arr.zip y_arr).get ⟨j, hj2⟩) (List.get_mem _ _ _)
      rw [hjpair] at this
      have hble2 : b ≤ sq_dist px py (x_arr.getD j 0) (y_arr.getD j 0) := this hjle'
      have : euclid_dist px py (x_arr.getD k 0) (y_arr.getD k 0) =
          Real.sqrt ((b : ℤ) : ℝ) := by rw [hbeq']; rfl
      rw [this]
      unfold euclid_dist
      exact (sqrt_cast_le_iff b _ (sq_dist_nonneg _ _ _ _)).mpr hble2
    · intro j hjk hjle
      have hjx : j < x_arr.length := lt_trans hjk hkx
      have hj2 : j < (x_arr.zip y_arr).length := hptslen ▸ hjx
      obtain ⟨hj2', hjpair⟩ := zip_get_pair x_arr y_arr hlen j hjx
      have hjle' : sq_dist px py (x_arr.getD j 0) (y_arr.getD j 0) ≤ max_dist * max_dist :=
        (euclid_dist_le_iff px py (x_arr.getD j 0) (y_arr.getD j 0) max_dist hmd).mp hjle
      have := hstrict j hj2 hjk
      rw [hjpair] at this
      have hblt : b < sq_dist px py (x_arr.getD j 0) (y_arr.getD j 0) := this hjle'
      have hke : euclid_dist px py (x_arr.getD k 0) (y_arr.getD k 0) =
          Real.sqrt ((b : ℤ) : ℝ) := by rw [hbeq']; rfl
      rw [hke]
      unfold euclid_dist
      exact (sqrt_cast_lt_iff b _ hbnn).mpr hblt

theorem nearest_idx_spec_witness :
    [(3 : ℤ)].length = [(4 : ℤ)].length ∧ (0 : ℤ) ≤ 5 ∧
    (((nearest_idx 0 0 [3] [4] 5).2 = none →
       (nearest_idx 0 0 [3] [4] 5).1 = -1 ∧
       ∀ i, i < [(3 : ℤ)].length →
         ((5 : ℤ) : ℝ) < euclid_dist 0 0 ([(3 : ℤ)].getD i 0) ([(4 : ℤ)].getD i 0)) ∧
    (∀ b, (nearest_idx 0 0 [3] [4] 5).2 = some b →
       ∃ k, k < [(3 : ℤ)].length ∧ (nearest_idx 0 0 [3] [4] 5).1 = (k : Int) ∧
         Real.sqrt ((b : ℤ) : ℝ) = euclid_dist 0 0 ([(3 : ℤ)].getD k 0) ([(4 : ℤ)].getD k 0) ∧
         euclid_dist 0 0 ([(3 : ℤ)].getD k 0) ([(4 : ℤ)].getD k 0) ≤ ((5 : ℤ) : ℝ) ∧
         (∀ j, j < [(3 : ℤ)].length →
            euclid_dist 0 0 ([(3 : ℤ)].getD j 0) ([(4 : ℤ)].getD j 0) ≤ ((5 : ℤ) : ℝ) →
            euclid_dist 0 0 ([(3 : ℤ)].getD k 0) ([(4 : ℤ)].getD k 0) ≤
              euclid_dist 0 0 ([(3 : ℤ)].getD j 0) ([(4 : ℤ)].getD j 0)) ∧
         (∀ j, j < k →
            euclid_dist 0 0 ([(3 : ℤ)].getD j 0) ([(4 : ℤ)].getD j 0) ≤ ((5 : ℤ) : ℝ) →
            euclid_dist 0 0 ([(3 : ℤ)].getD k 0) ([(4 : ℤ)].getD k 0) <
              euclid_dist 0 0 ([(3 : ℤ)].getD j 0) ([(4 : ℤ)].getD j 0)))) :=
  ⟨by decide, by decide, nearest_idx_spec 0 0 [3] [4] 5 (by decide) (by decide)⟩

/-- Node record of the packed network arrays (section 3): projected
coordinates, live flag, reserved ghosted flag and node weight. -/
structure NodeRecord where
  x : ℤ
  y : ℤ
  live : Bool
  ghosted : Bool
  weight : ℚ

/-- Default node record used as the out-of-range placeholder of getD. -/
def dfltNode : NodeRecord := ⟨0, 0, false, false, 0⟩

/-- Data record of the packed data arrays (section 3): projected coordinates,
live flag, encoded class code and the two assigned anchor node indices; none
models the NaN markers of the reference. -/
structure DataRecord where
  x : ℤ
  y : ℤ
  live : Bool
  class_code : Option ℕ
  nearest_assigned : Option ℕ
  next_nearest_assigned : Option ℕ

/-- Default data record used as the out-of-range placeholder of getD. -/
def dfltData : DataRecord := ⟨0, 0, false, none, none, none⟩

/-- Candidate route distance of a data point through one of its anchors
(section 4.7 step 2): the segment distance from the point to the anchor node
plus the anchor's shortest-path-tree distance from the source; the candidate
is +inf (top) when the anchor is unassigned or falls outside the trimmed
network. -/
noncomputable def route_dist (dr : DataRecord) (anchor : Option ℕ)
    (node_map : List NodeRecord) (netw_full_to_trim : List (Option ℕ))
    (map_distance_trim : List (WithTop ℝ)) : WithTop ℝ :=
  match anchor with
  | none => ⊤
  | some a =>
    match netw_full_to_trim.getD a none with
    | none => ⊤
    | some t =>
        ((euclid_dist dr.x dr.y (node_map.getD a dfltNode).x
            (node_map.getD a dfltNode).y : ℝ) : WithTop ℝ) +
          map_distance_trim.getD t ⊤

/-- Reach record of one data point (section 4.7 step 2): its class code and
the minimum of its two candidate route distances when that minimum is within
max_dist, otherwise the unreachable marker (none class, +inf reach). -/
noncomputable def reach_entry (node_map : List NodeRecord) (data_map : List DataRecord)
    (max_dist : ℤ) (netw_full_to_trim : List (Option ℕ))
    (map_distance_trim : List (WithTop ℝ)) (p : ℕ) : Option ℕ × WithTop ℝ :=
  if min (route_dist (data_map.getD p dfltData) (data_map.getD p dfltData).nearest_assigned
          node_map netw_full_to_trim map_distance_trim)
        (route_dist (data_map.getD p dfltData) (data_map.getD p dfltData).next_nearest_assigned
          node_map netw_full_to_trim map_distance_trim) ≤ ((max_dist : ℝ) : WithTop ℝ) then
    ((data_map.getD p dfltData).class_code,
     min (route_dist (data_map.getD p dfltData) (data_map.getD p dfltData).nearest_assigned
          node_map netw_full_to_trim map_distance_trim)
        (route_dist (data_map.getD p dfltData) (data_map.getD p dfltData).next_nearest_assigned
          node_map netw_full_to_trim map_distance_trim))
  else (none, ⊤)

/-- Modelled from the spec: data.aggregate_to_src_idx (section 4.7 steps 1-2;
the module cityseer.algos.data is absent from the sources).  Radially filter
the data points around the source node, and give each survivor the minimum of
its two candidate route distances as its reach distance, or +inf (with a none
class marker) when both candidates exceed max_dist.  The shortest-path-tree
kernel of section 4.4 is a separate component; its per-trimmed-node distance
vector and the network trim map enter here as parameters, which covers both
the metric and the angular tree modes at once. -/
noncomputable def aggregate_to_src_idx (src_idx : ℕ) (node_map : List NodeRecord)
    (data_map : List DataRecord) (max_dist : ℤ)
    (netw_full_to_trim : List (Option ℕ)) (map_distance_trim : List (WithTop ℝ)) :
    List (Option ℕ) × List (WithTop ℝ) × List ℕ :=
  ((radial_filter (node_map.getD src_idx dfltNode).x (node_map.getD src_idx dfltNode).y
      (data_map.map (fun d => d.x)) (data_map.map (fun d => d.y)) max_dist).1.map
    (fun p => (reach_entry node_map data_map max_dist netw_full_to_trim map_distance_trim p).1),
   (radial_filter (node_map.getD src_idx dfltNode).x (node_map.getD src_idx dfltNode).y
      (data_map.map (fun d => d.x)) (data_map.map (fun d => d.y)) max_dist).1.map
    (fun p => (reach_entry node_map data_map max_dist netw_full_to_trim map_distance_trim p).2),
   (radial_filter (node_map.getD src_idx dfltNode).x (node_map.getD src_idx dfltNode).y
      (data_map.map (fun d => d.x)) (data_map.map (fun d => d.y)) max_dist).1)

lemma getD_map_of_lt {α β : Type} (f : α → β) (l : List α) (i : ℕ) (d : α) (e : β)
    (hi : i < l.length) : (l.map f).getD i e = f (l.getD i d) := by
  rw [List.getD_eq_getElem?_getD, List.getElem?_map, List.getElem?_eq_getElem hi,
    List.getD_eq_getElem?_getD, List.getElem?_eq_getElem hi]
  rfl

lemma reach_entry_spec (node_map : List NodeRecord) (data_map : List DataRecord)
    (max_dist : ℤ) (netw_full_to_trim : List (Option ℕ))
    (map_distance_trim : List (WithTop ℝ)) (p : ℕ) :
    ((reach_entry node_map data_map max_dist netw_full_to_trim map_distance_trim p).2 = ⊤ ↔
      (((max_dist : ℝ) : WithTop ℝ) <
        route_dist (data_map.getD p dfltData) (data_map.getD p dfltData).nearest_assigned
          node_map netw_full_to_trim map_distance_trim ∧
       ((max_dist : ℝ) : WithTop ℝ) <
        route_dist (data_map.getD p dfltData) (data_map.getD p dfltData).next_nearest_assigned
          node_map netw_full_to_trim map_distance_trim)) ∧
    ((reach_entry node_map data_map max_dist netw_full_to_trim map_distance_trim p).2 ≠ ⊤ →
      (reach_entry node_map data_map max_dist netw_full_to_trim map_distance_trim p).2 =
        min (route_dist (data_map.getD p dfltData) (data_map.getD p dfltData).nearest_assigned
              node_map netw_full_to_trim map_distance_trim)
            (route_dist (data_map.getD p dfltData) (data_map.getD p dfltData).next_nearest_assigned
              node_map netw_full_to_trim map_distance_trim) ∧
      (reach_entry node_map data_map max_dist netw_full_to_trim map_distance_trim p).2 ≤
        ((max_dist : ℝ) : WithTop ℝ)) := by
  unfold reach_entry
  by_cases hc : min (route_dist (data_map.getD p dfltData)
        (data_map.getD p dfltData).nearest_assigned node_map netw_full_to_trim map_distance_trim)
      (route_dist (data_map.getD p dfltData) (data_map.getD p dfltData).next_nearest_assigned
        node_map netw_full_to_trim map_distance_trim) ≤ ((max_dist : ℝ) : WithTop ℝ)
  · rw [if_pos hc]
    constructor
    · constructor
      · intro htop
        simp only at htop
        rw [htop] at hc
        exact absurd hc (by simp)
      · rintro ⟨h1, h2⟩
        exact absurd hc (not_le.mpr (lt_min_iff.mpr ⟨h1, h2⟩))
    · intro _
      exact ⟨rfl, hc⟩
  · rw [if_neg hc]
    constructor
    · constructor
      · intro _
        exact lt_min_iff.mp (not_le.mp hc)
      · intro _
        rfl
    · intro hne
      exact absurd rfl hne

/-- C2: for every source, radius and shortest-path-tree distance vector (hence
for both the metric and the angular mode), aggregate_to_src_idx returns the
radially surviving data points, giving each one a reach distance equal to the
minimum of its two candidate route distances (segment distance to the anchor
plus the anchor's tree distance, for each of the two assigned anchors that is
finite and inside the trimmed network); the reach is +inf exactly when both
candidates exceed max_dist, and every finite reach equals that minimum and is
at most max_dist. -/
theorem aggregate_to_src_idx_reach (src_idx : ℕ) (node_map : List NodeRecord)
    (data_map : List DataRecord) (max_dist : ℤ)
    (netw_full_to_trim : List (Option ℕ)) (map_distance_trim : List (WithTop ℝ))
    (i : ℕ)
    (hi : i < ((radial_filter (node_map.getD src_idx dfltNode).x
        (node_map.getD src_idx dfltNode).y (data_map.map (fun d => d.x))
        (data_map.map (fun d => d.y)) max_dist).1).length) :
    (aggregate_to_src_idx src_idx node_map data_map max_dist netw_full_to_trim
        map_distance_trim).2.2 =
      (radial_filter (node_map.getD src_idx dfltNode).x
        (node_map.getD src_idx dfltNode).y (data_map.map (fun d => d.x))
        (data_map.map (fun d => d.y)) max_dist).1 ∧
    ((aggregate_to_src_idx src_idx node_map data_map max_dist netw_full_to_trim
        map_distance_trim).2.1.getD i ⊤ = ⊤ ↔
      (((max_dist : ℝ) : WithTop ℝ) <
        route_dist (data_map.getD (((radial_filter (node_map.getD src_idx dfltNode).x
            (node_map.getD src_idx dfltNode).y (data_map.map (fun d => d.x))
            (data_map.map (fun d => d.y)) max_dist).1).getD i 0) dfltData)
          (data_map.getD (((radial_filter (node_map.getD src_idx dfltNode).x
            (node_map.getD src_idx dfltNode).y (data_map.map (fun d => d.x))
            (data_map.map (fun d => d.y)) max_dist).1).getD i 0) dfltData).nearest_assigned
          node_map netw_full_to_trim map_distance_trim ∧
       ((max_dist : ℝ) : WithTop ℝ) <
        route_dist (data_map.getD (((radial_filter (node_map.getD src_idx dfltNode).x
            (node_map.getD src_idx dfltNode).y (data_map.map (fun d => d.x))
            (data_map.map (fun d => d.y)) max_dist).1).getD i 0) dfltData)
          (data_map.getD (((radial_filter (node_map.getD src_idx dfltNode).x
            (node_map.getD src_idx dfltNode).y (data_map.map (fun d => d.x))
            (data_map.map (fun d => d.y)) max_dist).1).getD i 0) dfltData).next_nearest_assigned
          node_map netw_full_to_trim map_distance_trim)) ∧
    ((aggregate_to_src_idx src_idx node_map data_map max_dist netw_full_to_trim
        map_distance_trim).2.1.getD i ⊤ ≠ ⊤ →
      (aggregate_to_src_idx src_idx node_map data_map max_dist netw_full_to_trim
        map_distance_trim).2.1.getD i ⊤ =
        min (route_dist (data_map.getD (((radial_filter (node_map.getD src_idx dfltNode).x
            (node_map.getD src_idx dfltNode).y (data_map.map (fun d => d.x))
            (data_map.map (fun d => d.y)) max_dist).1).getD i 0) dfltData)
          (data_map.getD (((radial_filter (node_map.getD src_idx dfltNode).x
            (node_map.getD src_idx dfltNode).y (data_map.map (fun d => d.x))
            (data_map.map (fun d => d.y)) max_dist).1).getD i 0) dfltData).nearest_assigned
          node_map netw_full_to_trim map_distance_trim)
          (route_dist (data_map.getD (((radial_filter (node_map.getD src_idx dfltNode).x
            (node_map.getD src_idx dfltNode).y (data_map.map (fun d => d.x))
            (data_map.map (fun d => d.y)) max_dist).1).getD i 0) dfltData)
          (data_map.getD (((radial_filter (node_map.getD src_idx dfltNode).x
            (node_map.getD src_idx dfltNode).y (data_map.map (fun d => d.x))
            (data_map.map (fun d => d.y)) max_dist).1).getD i 0) dfltData).next_nearest_assigned
          node_map netw_full_to_trim map_distance_trim) ∧
      (aggregate_to_src_idx src_idx node_map data_map max_dist netw_full_to_trim
        map_distance_trim).2.1.getD i ⊤ ≤ ((max_dist : ℝ) : WithTop ℝ)) := by
  have hout : (aggregate_to_src_idx src_idx node_map data_map max_dist netw_full_to_trim
      map_distance_trim).2.1.getD i ⊤ =
      (reach_entry node_map data_map max_dist netw_full_to_trim map_distance_trim
        (((radial_filter (node_map.getD src_idx dfltNode).x
          (node_map.getD src_idx dfltNode).y (data_map.map (fun d => d.x))
          (data_map.map (fun d => d.y)) max_dist).1).getD i 0)).2 := by
    exact getD_map_of_lt _ _ i 0 ⊤ hi
  obtain ⟨hiff, hfin⟩ := reach_entry_spec node_map data_map max_dist netw_full_to_trim
    map_distance_trim (((radial_filter (node_map.getD src_idx dfltNode).x
      (node_map.getD src_idx dfltNode).y (data_map.map (fun d => d.x))
      (data_map.map (fun d => d.y)) max_dist).1).getD i 0)
  refine ⟨rfl, ?_, ?_⟩
  · rw [hout]
    exact hiff
  · rw [hout]
    exact hfin

theorem aggregate_to_src_idx_reach_witness :
    0 < ((radial_filter (([⟨0, 0, true, false, 0⟩] : List NodeRecord).getD 0 dfltNode).x
        (([⟨0, 0, true, false, 0⟩] : List NodeRecord).getD 0 dfltNode).y
        (([⟨3, 4, true, some 0, some 0, none⟩] : List DataRecord).map (fun d => d.x))
        (([⟨3, 4, true, some 0, some 0, none⟩] : List DataRecord).map (fun d => d.y))
        10).1).length ∧
    (aggregate_to_src_idx 0 [⟨0, 0, true, false, 0⟩] [⟨3, 4, true, some 0, some 0, none⟩]
        10 [some 0] [((0 : ℝ) : WithTop ℝ)]).2.2 =
      (radial_filter (([⟨0, 0, true, false, 0⟩] : List NodeRecord).getD 0 dfltNode).x
        (([⟨0, 0, true, false, 0⟩] : List NodeRecord).getD 0 dfltNode).y
        (([⟨3, 4, true, some 0, some 0, none⟩] : List DataRecord).map (fun d => d.x))
        (([⟨3, 4, true, some 0, some 0, none⟩] : List DataRecord).map (fun d => d.y))
        10).1 :=
  ⟨by decide,
   (aggregate_to_src_idx_reach 0 [⟨0, 0, true, false, 0⟩]
     [⟨3, 4, true, some 0, some 0, none⟩] 10 [some 0] [((0 : ℝ) : WithTop ℝ)] 0
     (by decide)).1⟩

/-- Entry of the raw data dictionary handed to the data-preparation
collaborator: optional coordinate attributes (a missing attribute is none)
and a live flag. -/
structure DataDictEntry where
  x : Option ℤ
  y : Option ℤ
  live : Bool

/-- Default dictionary entry used as the out-of-range placeholder of getD. -/
def dfltDictEntry : ℕ × DataDictEntry := (0, ⟨none, none, false⟩)

/-- Modelled from the spec: layers.data_map_from_dict (section 6 input
contract of the data-preparation collaborator; the module
cityseer.metrics.layers is absent from the sources).  Builds the parallel
uid sequence and the packed data map of section 3, copying the x, y and live
attributes and initialising the class code and both anchor columns to none
(NaN in the reference); a dictionary entry missing its x or y attribute
raises an error. -/
def data_map_from_dict (data_dict : List (ℕ × DataDictEntry)) :
    Except String (List ℕ × List DataRecord) :=
  if data_dict.all (fun kv => kv.2.x.isSome && kv.2.y.isSome) then
    Except.ok (data_dict.map (fun kv => kv.1),
      data_dict.map (fun kv =>
        ⟨kv.2.x.getD 0, kv.2.y.getD 0, kv.2.live, none, none, none⟩))
  else Except.error "x and y data attributes must be provided"

/-- C9: on a dictionary whose entries all carry x and y attributes,
data_map_from_dict returns uids and a data map of the dictionary's length
whose records copy the x, y and live values and initialise the class code
and both anchor columns to none; a dictionary missing an x or y attribute
yields an error. -/
theorem data_map_from_dict_spec (data_dict : List (ℕ × DataDictEntry)) :
    (data_dict.all (fun kv => kv.2.x.isSome && kv.2.y.isSome) = true →
      ∃ uids dmap, data_map_from_dict data_dict = Except.ok (uids, dmap) ∧
        uids.length = data_dict.length ∧ dmap.length = data_dict.length ∧
        ∀ i, i < data_dict.length →
          uids.getD i 0 = (data_dict.getD i dfltDictEntry).1 ∧
          (data_dict.getD i dfltDictEntry).2.x = some (dmap.getD i dfltData).x ∧
          (data_dict.getD i dfltDictEntry).2.y = some (dmap.getD i dfltData).y ∧
          (dmap.getD i dfltData).live = (data_dict.getD i dfltDictEntry).2.live ∧
          (dmap.getD i dfltData).class_code = none ∧
          (dmap.getD i dfltData).nearest_assigned = none ∧
          (dmap.getD i dfltData).next_nearest_assigned = none) ∧
    (data_dict.all (fun kv => kv.2.x.isSome && kv.2.y.isSome) = false →
      ∃ msg, data_map_from_dict data_dict = Except.error msg) := by
  constructor
  · intro hall
    refine ⟨data_dict.map (fun kv => kv.1),
      data_dict.map (fun kv => ⟨kv.2.x.getD 0, kv.2.y.getD 0, kv.2.live, none, none, none⟩),
      ?_, by simp, by simp, ?_⟩
    · unfold data_map_from_dict
      rw [if_pos hall]
    · intro i hi
      have hkv : (data_dict.getD i dfltDictEntry) ∈ data_dict := by
        rw [List.getD_eq_getElem?_getD, List.getElem?_eq_getElem hi]
        exact List.getElem_mem hi
      have hx : (data_dict.getD i dfltDictEntry).2.x.isSome = true ∧
          (data_dict.getD i dfltDictEntry).2.y.isSome = true := by
        have := List.all_eq_true.mp hall _ hkv
        exact ⟨(Bool.and_eq_true_iff.mp this).1, (Bool.and_eq_true_iff.mp this).2⟩
      refine ⟨getD_map_of_lt _ data_dict i dfltDictEntry 0 hi, ?_, ?_, ?_, ?_, ?_, ?_⟩
      · rw [getD_map_of_lt _ data_dict i dfltDictEntry dfltData hi]
        exact (Option.eq_some_of_isSome hx.1).symm ▸ rfl
      · rw [getD_map_of_lt _ data_dict i dfltDictEntry dfltData hi]
        exact (Option.eq_some_of_isSome hx.2).symm ▸ rfl
      · rw [getD_map_of_lt _ data_dict i dfltDictEntry dfltData hi]
      · rw [getD_map_of_lt _ data_dict i dfltDictEntry dfltData hi]
      · rw [getD_map_of_lt _ data_dict i dfltDictEntry dfltData hi]
      · rw [getD_map_of_lt _ data_dict i dfltDictEntry dfltData hi]
  · intro hall
    refine ⟨"x and y data attributes must be provided", ?_⟩
    unfold data_map_from_dict
    rw [if_neg (by rw [hall]; exact Bool.false_ne_true)]

theorem data_map_from_dict_spec_witness :
    ([((7 : ℕ), (⟨some 3, some 4, true⟩ : DataDictEntry))].all
        (fun kv => kv.2.x.isSome && kv.2.y.isSome) = true) ∧
    (∃ uids dmap,
      data_map_from_dict [((7 : ℕ), (⟨some 3, some 4, true⟩ : DataDictEntry))] =
        Except.ok (uids, dmap) ∧
      uids.length = [((7 : ℕ), (⟨some 3, some 4, true⟩ : DataDictEntry))].length ∧
      dmap.length = [((7 : ℕ), (⟨some 3, some 4, true⟩ : DataDictEntry))].length ∧
      ∀ i, i < [((7 : ℕ), (⟨some 3, some 4, true⟩ : DataDictEntry))].length →
        uids.getD i 0 =
          ([((7 : ℕ), (⟨some 3, some 4, true⟩ : DataDictEntry))].getD i dfltDictEntry).1 ∧
        ([((7 : ℕ), (⟨some 3, some 4, true⟩ : DataDictEntry))].getD i dfltDictEntry).2.x =
          some (dmap.getD i dfltData).x ∧
        ([((7 : ℕ), (⟨some 3, some 4, true⟩ : DataDictEntry))].getD i dfltDictEntry).2.y =
          some (dmap.getD i dfltData).y ∧
        (dmap.getD i dfltData).live =
          ([((7 : ℕ), (⟨some 3, some 4, true⟩ : DataDictEntry))].getD i dfltDictEntry).2.live ∧
        (dmap.getD i dfltData).class_code = none ∧
        (dmap.getD i dfltData).nearest_assigned = none ∧
        (dmap.getD i dfltData).next_nearest_assigned = none) :=
  ⟨by decide,
   (data_map_from_dict_spec [((7 : ℕ), (⟨some 3, some 4, true⟩ : DataDictEntry))]).1
     (by decide)⟩

/-- Node of the external graph representation: an external uid with the node
attributes consumed by the packed arrays. -/
structure NXNode where
  uid : ℕ
  x : ℤ
  y : ℤ
  live : Bool
  weight : ℚ

/-- Undirected edge of the external graph representation. -/
structure NXEdge where
  start_uid : ℕ
  end_uid : ℕ
  length : ℚ
  impedance : ℚ

/-- Edge record of the packed edge arrays (section 3): directed endpoint
indices into the node array with length and impedance. -/
structure EdgeRecord where
  start_idx : ℕ
  end_idx : ℕ
  length : ℚ
  impedance : ℚ

/-- Modelled from the spec: graphs.graph_maps_from_nX (section 6 input
contract of the graph-preparation collaborator; the module
cityseer.util.graphs is absent from the sources).  Produces the parallel uid
sequence, the packed node records, and the packed edge records in which each
undirected street segment appears twice, once per direction (section 3),
endpoints encoded as indices into the uid sequence. -/
def graph_maps_from_nX (nodes : List NXNode) (edges : List NXEdge) :
    List ℕ × List NodeRecord × List EdgeRecord :=
  (nodes.map (fun n => n.uid),
   nodes.map (fun n => ⟨n.x, n.y, n.live, false, n.weight⟩),
   edges.flatMap (fun e =>
     [⟨(nodes.map (fun n => n.uid)).indexOf e.start_uid,
       (nodes.map (fun n => n.uid)).indexOf e.end_uid, e.length, e.impedance⟩,
      ⟨(nodes.map (fun n => n.uid)).indexOf e.end_uid,
       (nodes.map (fun n => n.uid)).indexOf e.start_uid, e.length, e.impedance⟩]))

/-- Node of the external graph rebuilt from the packed arrays, carrying the
optional per-node metrics attribute written from the facade's result
dictionary. -/
structure NXNodeOut (μ : Type) where
  uid : ℕ
  x : ℤ
  y : ℤ
  live : Bool
  weight : ℚ
  metrics : Option μ

/-- Forgetting the metrics attribute of a rebuilt node. -/
def strip_metrics {μ : Type} (p : NXNodeOut μ) : NXNode :=
  ⟨p.uid, p.x, p.y, p.live, p.weight⟩

/-- Modelled from the spec: graphs.nX_from_graph_maps (section 6,
network.metrics_to_dict and graph_from_arrays marshal results back; the
module cityseer.util.graphs is absent from the sources).  Rebuilds the
external graph from the packed arrays: one node per uid with the packed
attributes and, when a metrics dictionary is supplied, a metrics attribute
equal to that node's entry; the edge list carries one directed uid pair per
packed edge record, which the external undirected representation
deduplicates. -/
def nX_from_graph_maps {μ : Type} (node_uids : List ℕ) (node_map : List NodeRecord)
    (edge_map : List EdgeRecord) (metrics_dict : Option (ℕ → μ)) :
    List (NXNodeOut μ) × List (ℕ × ℕ) :=
  ((node_uids.zip node_map).map (fun un =>
     ⟨un.1, un.2.x, un.2.y, un.2.live, un.2.weight,
      metrics_dict.map (fun f => f un.1)⟩),
   edge_map.map (fun e => (node_uids.getD e.start_idx 0, node_uids.getD e.end_idx 0)))

/-- Undirected adjacency over a directed uid-pair list. -/
def pair_edge (prs : List (ℕ × ℕ)) (a b : ℕ) : Prop :=
  ∃ pr ∈ prs, pr = (a, b) ∨ pr = (b, a)

/-- Undirected adjacency over the external edge list. -/
def nx_edge (edges : List NXEdge) (a b : ℕ) : Prop :=
  ∃ e ∈ edges, (e.start_uid = a ∧ e.end_uid = b) ∨ (e.start_uid = b ∧ e.end_uid = a)

lemma getD_indexOf_of_mem (l : List ℕ) (u : ℕ) (h : u ∈ l) :
    l.getD (l.indexOf u) 0 = u := by
  have hlt := List.indexOf_lt_length.mpr h
  rw [List.getD_eq_getElem?_getD, List.getElem?_eq_getElem hlt]
  simp [List.getElem_indexOf]

/-- C7: converting packed arrays back to the external representation is a
round trip: the rebuilt graph carries exactly the original nodes (uids and
attributes), its undirected edge relation coincides with the original edge
endpoint pairs, and when a metrics dictionary is supplied every rebuilt
node's metrics attribute equals that node's entry in the dictionary. -/
theorem nX_from_graph_maps_round_trip {μ : Type} (nodes : List NXNode)
    (edges : List NXEdge) (metrics_dict : ℕ → μ)
    (hends : ∀ e ∈ edges, e.start_uid ∈ nodes.map (fun n => n.uid) ∧
      e.end_uid ∈ nodes.map (fun n => n.uid)) :
    ((nX_from_graph_maps (graph_maps_from_nX nodes edges).1
        (graph_maps_from_nX nodes edges).2.1 (graph_maps_from_nX nodes edges).2.2
        (some metrics_dict)).1.map strip_metrics = nodes) ∧
    (∀ p ∈ (nX_from_graph_maps (graph_maps_from_nX nodes edges).1
        (graph_maps_from_nX nodes edges).2.1 (graph_maps_from_nX nodes edges).2.2
        (some metrics_dict)).1, p.metrics = some (metrics_dict p.uid)) ∧
    (∀ a b, pair_edge (nX_from_graph_maps (graph_maps_from_nX nodes edges).1
        (graph_maps_from_nX nodes edges).2.1 (graph_maps_from_nX nodes edges).2.2
        (some metrics_dict)).2 a b ↔ nx_edge edges a b) := by
  have hzip : ((graph_maps_from_nX nodes edges).1).zip
      ((graph_maps_from_nX nodes edges).2.1) =
      nodes.map (fun n => (n.uid, (⟨n.x, n.y, n.live, false, n.weight⟩ : NodeRecord))) := by
    unfold graph_maps_from_nX
    exact List.zip_map' _ _ nodes
  refine ⟨?_, ?_, ?_⟩
  · show (((graph_maps_from_nX nodes edges).1.zip
        ((graph_maps_from_nX nodes edges).2.1)).map _).map strip_metrics = nodes
    rw [hzip, List.map_map, List.map_map]
    conv_rhs => rw [← List.map_id nodes]
    apply List.map_congr_left
    intro n _
    cases n
    rfl
  · intro p hp
    show p.metrics = some (metrics_dict p.uid)
    have hp2 : p ∈ ((graph_maps_from_nX nodes edges).1.zip
        ((graph_maps_from_nX nodes edges).2.1)).map (fun un =>
        (⟨un.1, un.2.x, un.2.y, un.2.live, un.2.weight,
          (some metrics_dict).map (fun f => f un.1)⟩ : NXNodeOut μ)) := hp
    obtain ⟨un, _, hun⟩ := List.mem_map.mp hp2
    rw [← hun]
    rfl
  · intro a b
    have hpairs : (nX_from_graph_maps (graph_maps_from_nX nodes edges).1
        (graph_maps_from_nX nodes edges).2.1 (graph_maps_from_nX nodes edges).2.2
        (some metrics_dict)).2 =
        ((graph_maps_from_nX nodes edges).2.2).map (fun e =>
          ((graph_maps_from_nX nodes edges).1.getD e.start_idx 0,
           (graph_maps_from_nX nodes edges).1.getD e.end_idx 0)) := rfl
    constructor
    · rintro ⟨pr, hpr, hor⟩
      rw [hpairs] at hpr
      obtain ⟨er, her, hermap⟩ := List.mem_map.mp hpr
      have her2 : er ∈ edges.flatMap (fun e =>
          [(⟨(nodes.map (fun n => n.uid)).indexOf e.start_uid,
            (nodes.map (fun n => n.uid)).indexOf e.end_uid, e.length, e.impedance⟩ : EdgeRecord),
           ⟨(nodes.map (fun n => n.uid)).indexOf e.end_uid,
            (nodes.map (fun n => n.uid)).indexOf e.start_uid, e.length, e.impedance⟩]) := her
      obtain ⟨e, he, hein⟩ := List.mem_flatMap.mp her2
      have hstart := (hends e he).1
      have hend := (hends e he).2
      have huids : (graph_maps_from_nX nodes edges).1 = nodes.map (fun n => n.uid) := rfl
      have hs : (graph_maps_from_nX nodes edges).1.getD
          ((nodes.map (fun n => n.uid)).indexOf e.start_uid) 0 = e.start_uid := by
        rw [huids]
        exact getD_indexOf_of_mem _ _ hstart
      have hee : (graph_maps_from_nX nodes edges).1.getD
          ((nodes.map (fun n => n.uid)).indexOf e.end_uid) 0 = e.end_uid := by
        rw [huids]
        exact getD_indexOf_of_mem _ _ hend
      rcases List.mem_pair.mp hein with hfw | hbw
      · rw [hfw] at hermap
        simp only at hermap
        rw [hs, hee] at hermap
        rcases hor with h1 | h1
        · rw [← hermap] at h1
          exact ⟨e, he, Or.inl ⟨congrArg Prod.fst h1, congrArg Prod.snd h1⟩⟩
        · rw [← hermap] at h1
          exact ⟨e, he, Or.inr ⟨congrArg Prod.fst h1, congrArg Prod.snd h1⟩⟩
      · rw [hbw] at hermap
        simp only at hermap
        rw [hs, hee] at hermap
        rcases hor with h1 | h1
        · rw [← hermap] at h1
          exact ⟨e, he, Or.inr ⟨congrArg Prod.snd h1, congrArg Prod.fst h1⟩⟩
        · rw [← hermap] at h1
          exact ⟨e, he, Or.inl ⟨congrArg Prod.snd h1, congrArg Prod.fst h1⟩⟩
    · rintro ⟨e, he, hor⟩
      have hstart := (hends e he).1
      have hend := (hends e he).2
      have hfwmem : (⟨(nodes.map (fun n => n.uid)).indexOf e.start_uid,
          (nodes.map (fun n => n.uid)).indexOf e.end_uid, e.length, e.impedance⟩ : EdgeRecord) ∈
          (graph_maps_from_nX nodes edges).2.2 := by
        show _ ∈ edges.flatMap _
        exact List.mem_flatMap.mpr ⟨e, he, List.mem_cons_self _ _⟩
      have hs : (graph_maps_from_nX nodes edges).1.getD
          ((nodes.map (fun n => n.uid)).indexOf e.start_uid) 0 = e.start_uid :=
        getD_indexOf_of_mem _ _ hstart
      have hee : (graph_maps_from_nX nodes edges).1.getD
          ((nodes.map (fun n => n.uid)).indexOf e.end_uid) 0 = e.end_uid :=
        getD_indexOf_of_mem _ _ hend
      refine ⟨((graph_maps_from_nX nodes edges).1.getD
          ((nodes.map (fun n => n.uid)).indexOf e.start_uid) 0,
        (graph_maps_from_nX nodes edges).1.getD
          ((nodes.map (fun n => n.uid)).indexOf e.end_uid) 0), ?_, ?_⟩
      · rw [hpairs]
        exact List.mem_map.mpr ⟨_, hfwmem, rfl⟩
      · rcases hor with ⟨h1, h2⟩ | ⟨h1, h2⟩
        · left
          rw [hs, hee, h1, h2]
        · right
          rw [hs, hee, h1, h2]

theorem nX_from_graph_maps_round_trip_witness :
    (∀ e ∈ [(⟨0, 1, 1, 1⟩ : NXEdge)],
      e.start_uid ∈ ([⟨0, 0, 0, true, 1⟩, ⟨1, 5, 0, true, 1⟩] : List NXNode).map
        (fun n => n.uid) ∧
      e.end_uid ∈ ([⟨0, 0, 0, true, 1⟩, ⟨1, 5, 0, true, 1⟩] : List NXNode).map
        (fun n => n.uid)) ∧
    ((nX_from_graph_maps
        (graph_maps_from_nX [⟨0, 0, 0, true, 1⟩, ⟨1, 5, 0, true, 1⟩] [⟨0, 1, 1, 1⟩]).1
        (graph_maps_from_nX [⟨0, 0, 0, true, 1⟩, ⟨1, 5, 0, true, 1⟩] [⟨0, 1, 1, 1⟩]).2.1
        (graph_maps_from_nX [⟨0, 0, 0, true, 1⟩, ⟨1, 5, 0, true, 1⟩] [⟨0, 1, 1, 1⟩]).2.2
        (some (fun u => u))).1.map strip_metrics =
      [⟨0, 0, 0, true, 1⟩, ⟨1, 5, 0, true, 1⟩]) :=
  ⟨by decide,
   (nX_from_graph_maps_round_trip [⟨0, 0, 0, true, 1⟩, ⟨1, 5, 0, true, 1⟩]
     [⟨0, 1, 1, 1⟩] (fun u => u) (by decide)).1⟩

/-- Modelled from the spec: layers.encode_categorical (section 6: categorical
labels are encoded by sorting the unique labels ascending and mapping each
label to its index; the module cityseer.metrics.layers is absent from the
sources). -/
def encode_categorical (labels : List String) : List String × List ℕ :=
  (labels.dedup.insertionSort (fun a b => a ≤ b),
   labels.map (fun l => (labels.dedup.insertionSort (fun a b => a ≤ b)).indexOf l))

/-- The Hill-family mixed-use metric names in key order (section 9 and the
test-suite's mixed_uses_hill_types). -/
def hill_metric_names : List String :=
  ["hill", "hill_branch_wt", "hill_pairwise_wt", "hill_pairwise_disparity"]

/-- The non-Hill mixed-use metric names in key order (section 9 and the
test-suite's mixed_use_other_types). -/
def other_metric_names : List String :=
  ["shannon", "gini_simpson", "raos_pairwise_disparity"]

/-- Data points reachable within threshold d, as (class code, reach) pairs,
read off the aggregation output (section 4.7 step 3). -/
noncomputable def reachable_at (cls : List (Option ℕ)) (reaches : List (WithTop ℝ))
    (d : ℝ) : List (ℕ × ℝ) :=
  (cls.zip reaches).filterMap (fun cr =>
    match cr.1 with
    | none => none
    | some c => if cr.2 ≤ (d : WithTop ℝ) then some (c, cr.2.untop' 0) else none)

/-- Class proportions over the reachable points (section 4.7). -/
noncomputable def class_props (pairs : List (ℕ × ℝ)) (num_classes : ℕ) : List ℝ :=
  (List.range num_classes).map (fun c =>
    ((pairs.countP (fun pr => pr.1 == c)) : ℝ) / (pairs.length : ℝ))

/-- Branch-weighted class proportions: each contribution is weighted by
exp(beta * reach) before normalising (section 4.7, hill_branch_wt). -/
noncomputable def class_props_wt (beta : ℝ) (pairs : List (ℕ × ℝ))
    (num_classes : ℕ) : List ℝ :=
  (List.range num_classes).map (fun c =>
    (((pairs.filter (fun pr => pr.1 == c)).map (fun pr => Real.exp (beta * pr.2))).sum) /
      ((pairs.map (fun pr => Real.exp (beta * pr.2))).sum))

/-- Branch distance of the nearest reachable member of a class. -/
noncomputable def class_nearest_reach (pairs : List (ℕ × ℝ)) (c : ℕ) : ℝ :=
  ((((pairs.filter (fun pr => pr.1 == c)).map (fun pr => pr.2)).min?).getD 0)

/-- Classical Hill number of order q over class proportions, with the
exponential-of-Shannon limit at q = 1 (section 4.7 and glossary). -/
noncomputable def hill_number (q : ℚ) (props : List ℝ) : ℝ :=
  if q = 1 then
    Real.exp (-(((props.filter (fun p => decide (0 < p))).map
      (fun p => p * Real.log p)).sum))
  else
    (((props.filter (fun p => decide (0 < p))).map
      (fun p => p ^ (q : ℝ))).sum) ^ (1 / (1 - (q : ℝ)))

/-- Pairwise-weighted Hill-style diversity of order q: the off-diagonal class
pairs weighted by w, with the exponential limit at q = 1 (section 4.7,
hill_pairwise_wt and hill_pairwise_disparity). -/
noncomputable def hill_pairwise (q : ℚ) (w : ℕ → ℕ → ℝ) (props : List ℝ) : ℝ :=
  if q = 1 then
    Real.exp (-(((List.range props.length).map (fun i =>
      ((List.range props.length).map (fun j =>
        if i ≠ j then
          w i j * props.getD i 0 * props.getD j 0 *
            Real.log (props.getD i 0 * props.getD j 0)
        else 0)).sum)).sum))
  else
    (((List.range props.length).map (fun i =>
      ((List.range props.length).map (fun j =>
        if i ≠ j then
          w i j * ((props.getD i 0 * props.getD j 0) ^ (q : ℝ))
        else 0)).sum)).sum) ^ (1 / (1 - (q : ℝ)))

/-- Rao quadratic diversity with pairwise weights w (section 4.7,
raos_pairwise_disparity). -/
noncomputable def rao_quadratic (w : ℕ → ℕ → ℝ) (props : List ℝ) : ℝ :=
  ((List.range props.length).map (fun i =>
    ((List.range props.length).map (fun j =>
      if i ≠ j then w i j * props.getD i 0 * props.getD j 0 else 0)).sum)).sum

/-- Shannon diversity over class proportions (section 4.7). -/
noncomputable def shannon_diversity (props : List ℝ) : ℝ :=
  -(((props.filter (fun p => decide (0 < p))).map (fun p => p * Real.log p)).sum)

/-- Gini-Simpson diversity over class proportions (section 4.7). -/
noncomputable def gini_simpson_diversity (props : List ℝ) : ℝ :=
  1 - ((props.map (fun p => p * p)).sum)

/-- Dispatch of one Hill-family metric key (0 hill, 1 hill_branch_wt,
2 hill_pairwise_wt, 3 hill_pairwise_disparity) at order q and decay beta. -/
noncomputable def mixed_use_hill_value (key : ℕ) (q : ℚ) (beta : ℝ)
    (disp : ℕ → ℕ → ℝ) (pairs : List (ℕ × ℝ)) (num_classes : ℕ) : ℝ :=
  if key = 0 then hill_number q (class_props pairs num_classes)
  else if key = 1 then hill_number q (class_props_wt beta pairs num_classes)
  else if key = 2 then
    hill_pairwise q
      (fun i j => Real.exp (beta * (class_nearest_reach pairs i + class_nearest_reach pairs j)))
      (class_props pairs num_classes)
  else hill_pairwise q disp (class_props pairs num_classes)

/-- Dispatch of one non-Hill metric key (0 shannon, 1 gini_simpson,
2 raos_pairwise_disparity). -/
noncomputable def mixed_use_other_value (key : ℕ) (disp : ℕ → ℕ → ℝ)
    (pairs : List (ℕ × ℝ)) (num_classes : ℕ) : ℝ :=
  if key = 0 then shannon_diversity (class_props pairs num_classes)
  else if key = 1 then gini_simpson_diversity (class_props pairs num_classes)
  else rao_quadratic disp (class_props pairs num_classes)

/-- Unweighted accessibility count of class c over the reachable points
(section 4.7 step 3). -/
noncomputable def accessibility_count (c : ℕ) (pairs : List (ℕ × ℝ)) : ℝ :=
  ((pairs.countP (fun pr => pr.1 == c)) : ℝ)

/-- Weighted accessibility of class c: exp(beta * reach) summed over the
reachable members (section 4.7 step 3). -/
noncomputable def accessibility_wt (c : ℕ) (beta : ℝ) (pairs : List (ℕ × ℝ)) : ℝ :=
  (((pairs.filter (fun pr => pr.1 == c)).map (fun pr => Real.exp (beta * pr.2))).sum)

/-- Writes the encoded land-use class codes into the class column of the data
map before aggregation. -/
def write_encodings (data_map : List DataRecord) (enc : List ℕ) : List DataRecord :=
  (data_map.zip enc).map (fun de => { de.1 with class_code := some de.2 })

/-- Reach pairs of one source node at one distance threshold: aggregate the
data points to the source at the largest radius, then keep the points whose
reach is within d (section 4.7 steps 1-3). -/
noncomputable def landuse_pairs (node_map : List NodeRecord) (data_map : List DataRecord)
    (max_dist : ℤ) (spt_dist : ℕ → List (WithTop ℝ)) (src : ℕ) (d : ℤ) :
    List (ℕ × ℝ) :=
  reachable_at
    (aggregate_to_src_idx src node_map data_map max_dist
      ((radial_filter (node_map.getD src dfltNode).x (node_map.getD src dfltNode).y
        (node_map.map (fun n => n.x)) (node_map.map (fun n => n.y)) max_dist).2)
      (spt_dist src)).1
    (aggregate_to_src_idx src node_map data_map max_dist
      ((radial_filter (node_map.getD src dfltNode).x (node_map.getD src dfltNode).y
        (node_map.map (fun n => n.x)) (node_map.map (fun n => n.y)) max_dist).2)
      (spt_dist src)).2.1
    ((d : ℤ) : ℝ)

/-- Modelled from the spec: diversity.local_landuses (section 4.7; the module
cityseer.algos.diversity is absent from the sources).  For every source node,
every distance threshold (with its parallel beta), every requested Hill key
with every q, every requested other key and every accessibility class key,
accumulate the diversity and accessibility values of the reachable data
points.  The output tensors are indexed positionally:
hill[key_pos][q_pos][d_pos][node], other[key_pos][d_pos][node] and
ac/ac_wt[key_pos][d_pos][node].  The section 4.4 shortest-path-tree kernel
enters as the spt_dist parameter (the per-source trimmed distance vector),
which covers the metric and angular modes; the edge map is consumed only by
that kernel. -/
noncomputable def local_landuses (node_map : List NodeRecord) (data_map : List DataRecord)
    (landuse_encodings : List ℕ) (distances : List ℤ) (betas : List ℝ) (qs : List ℚ)
    (mixed_use_hill_keys : List ℕ) (mixed_use_other_keys : List ℕ)
    (accessibility_keys : List ℕ) (cl_disparity_wt_matrix : ℕ → ℕ → ℝ)
    (spt_dist : ℕ → List (WithTop ℝ)) :
    List (List (List (List ℝ))) × List (List (List ℝ)) ×
      List (List (List ℝ)) × List (List (List ℝ)) :=
  let num_classes := landuse_encodings.foldr (fun c m => max (c + 1) m) 0
  let dm := write_encodings data_map landuse_encodings
  let max_dist := distances.foldr max 0
  (mixed_use_hill_keys.map (fun k =>
    qs.map (fun q =>
      (distances.zip betas).map (fun db =>
        (List.range node_map.length).map (fun src =>
          mixed_use_hill_value k q db.2 cl_disparity_wt_matrix
            (landuse_pairs node_map dm max_dist spt_dist src db.1) num_classes)))),
   mixed_use_other_keys.map (fun k =>
    (distances.zip betas).map (fun db =>
      (List.range node_map.length).map (fun src =>
        mixed_use_other_value k cl_disparity_wt_matrix
          (landuse_pairs node_map dm max_dist spt_dist src db.1) num_classes))),
   accessibility_keys.map (fun c =>
    (distances.zip betas).map (fun db =>
      (List.range node_map.length).map (fun src =>
        accessibility_count c (landuse_pairs node_map dm max_dist spt_dist src db.1)))),
   accessibility_keys.map (fun c =>
    (distances.zip betas).map (fun db =>
      (List.range node_map.length).map (fun src =>
        accessibility_wt c db.2 (landuse_pairs node_map dm max_dist spt_dist src db.1)))))

/-- Association list pairing each key with the value of its position,
starting at position i0. -/
def marshal_from {α β : Type} (f : ℕ → β) : List α → ℕ → List (α × β)
  | [], _ => []
  | k :: rest, i => (k, f i) :: marshal_from f rest (i + 1)

/-- Association list pairing each key with the value of its position. -/
def marshal {α β : Type} (keys : List α) (f : ℕ → β) : List (α × β) :=
  marshal_from f keys 0

/-- First value associated with a key in an association list. -/
def assoc_get {α β : Type} [DecidableEq α] (key : α) : List (α × β) → Option β
  | [] => none
  | kv :: rest => if kv.1 = key then some kv.2 else assoc_get key rest

/-- Result dictionary of the land-use facade: mixed-use tensors keyed by
metric name then q then distance for the Hill family, by metric name then
distance for the other family, and accessibility keyed by class label then
distance, in weighted and non-weighted variants. -/
structure LanduseMetrics where
  mixed_uses_hill : List (String × List (ℚ × List (ℤ × List ℝ)))
  mixed_uses_other : List (String × List (ℤ × List ℝ))
  accessibility_non_wt : List (String × List (ℤ × List ℝ))
  accessibility_wt : List (String × List (ℤ × List ℝ))

/-- Usage checks of the land-use facade (sections 6 and 7): the data layer
must have been assigned to a network, the label sequence must match the data
length, every mixed-use metric name and accessibility label must be
recognised, at least one metric must be requested, and the disparity-weighted
metrics require the disparity matrix.  Returns the error message of the first
failing check, or none. -/
def landuse_checks (data_map : List DataRecord) (landuse_labels : List String)
    (mixed_use_metrics : List String) (accessibility_labels : List String)
    (cl_disparity_wt_matrix : Option (ℕ → ℕ → ℝ)) : Option String :=
  if data_map.all (fun d => d.nearest_assigned.isNone) then
    some "data layer must first be assigned to a network layer"
  else if landuse_labels.length != data_map.length then
    some "length of landuse labels must match the number of data points"
  else if !(mixed_use_metrics.all (fun m =>
      hill_metric_names.contains m || other_metric_names.contains m)) then
    some "unrecognised mixed-use metric"
  else if !(accessibility_labels.all (fun l =>
      (encode_categorical landuse_labels).1.contains l)) then
    some "unrecognised accessibility label"
  else if mixed_use_metrics.isEmpty && accessibility_labels.isEmpty then
    some "no metrics or accessibility labels specified"
  else if (mixed_use_metrics.contains "hill_pairwise_disparity" ||
      mixed_use_metrics.contains "raos_pairwise_disparity") &&
      cl_disparity_wt_matrix.isNone then
    some "disparity weight matrix required"
  else none

/-- Successful result of the land-use facade: translate the requested metric
names to the numeric keys of the kernel in name order, run the land-use
aggregation kernel once, and marshal the positional output tensors into
dictionaries keyed by name, q and distance (section 2 orchestration and
section 6). -/
noncomputable def landuse_results (node_map : List NodeRecord) (data_map : List DataRecord)
    (distances : List ℤ) (betas : List ℝ) (landuse_labels : List String)
    (mixed_use_metrics : List String) (accessibility_labels : List String)
    (qs : List ℚ) (cl_disparity_wt_matrix : Option (ℕ → ℕ → ℝ))
    (spt_dist : ℕ → List (WithTop ℝ)) : LanduseMetrics :=
  let hill_sel := mixed_use_metrics.filter (fun m => hill_metric_names.contains m)
  let other_sel := mixed_use_metrics.filter (fun m => other_metric_names.contains m)
  let res := local_landuses node_map data_map (encode_categorical landuse_labels).2
    distances betas qs
    (hill_sel.map (fun m => hill_metric_names.indexOf m))
    (other_sel.map (fun m => other_metric_names.indexOf m))
    (accessibility_labels.map (fun l => (encode_categorical landuse_labels).1.indexOf l))
    (cl_disparity_wt_matrix.getD (fun _ _ => 0)) spt_dist
  { mixed_uses_hill := marshal hill_sel (fun i =>
      marshal qs (fun iq =>
        marshal distances (fun idd => ((res.1.getD i []).getD iq []).getD idd []))),
    mixed_uses_other := marshal other_sel (fun i =>
      marshal distances (fun idd => (res.2.1.getD i []).getD idd [])),
    accessibility_non_wt := marshal accessibility_labels (fun i =>
      marshal distances (fun idd => (res.2.2.1.getD i []).getD idd [])),
    accessibility_wt := marshal accessibility_labels (fun i =>
      marshal distances (fun idd => (res.2.2.2.getD i []).getD idd [])) }

/-- Modelled from the spec: Data_Layer.compute_landuses (section 6 facade
operation; the module cityseer.metrics.layers is absent from the sources).
Validates usage, then dispatches the land-use aggregation kernel and
marshals its results; on a failed check the facade raises and writes no
results, modelled by the error branch. -/
noncomputable def compute_landuses (node_map : List NodeRecord) (data_map : List DataRecord)
    (distances : List ℤ) (betas : List ℝ) (landuse_labels : List String)
    (mixed_use_metrics : List String) (accessibility_labels : List String)
    (qs : List ℚ) (cl_disparity_wt_matrix : Option (ℕ → ℕ → ℝ))
    (spt_dist : ℕ → List (WithTop ℝ)) : Except String LanduseMetrics :=
  match landuse_checks data_map landuse_labels mixed_use_metrics accessibility_labels
      cl_disparity_wt_matrix with
  | some msg => Except.error msg
  | none => Except.ok (landuse_results node_map data_map distances betas landuse_labels
      mixed_use_metrics accessibility_labels qs cl_disparity_wt_matrix spt_dist)

/-- The hill mixed-uses tensor entry of the facade result at a metric name,
a q value and a distance value. -/
def mu_hill_lookup (M : LanduseMetrics) (name : String) (q : ℚ) (d : ℤ) : List ℝ :=
  ((assoc_get d ((assoc_get q ((assoc_get name M.mixed_uses_hill).getD [])).getD [])).getD [])

lemma landuse_checks_none_conditions (data_map : List DataRecord)
    (landuse_labels : List String) (mixed_use_metrics : List String)
    (accessibility_labels : List String)
    (cl_disparity_wt_matrix : Option (ℕ → ℕ → ℝ))
    (h : landuse_checks data_map landuse_labels mixed_use_metrics accessibility_labels
      cl_disparity_wt_matrix = none) :
    data_map.all (fun d => d.nearest_assigned.isNone) = false ∧
    landuse_labels.length = data_map.length ∧
    (∀ m ∈ mixed_use_metrics, m ∈ hill_metric_names ∨ m ∈ other_metric_names) ∧
    (∀ l ∈ accessibility_labels, l ∈ (encode_categorical landuse_labels).1) := by
  unfold landuse_checks at h
  split_ifs at h with h1 h2 h3 h4 h5 h6
  refine ⟨?_, ?_, ?_, ?_⟩
  · simp only [Bool.not_eq_true] at h1
    exact h1
  · simp only [bne_iff_ne, ne_eq, Decidable.not_not] at h2
    exact h2
  · intro m hm
    simp only [Bool.not_eq_true, Bool.not_eq_false'] at h3
    have := List.all_eq_true.mp h3 m hm
    simpa using this
  · intro l hl
    simp only [Bool.not_eq_true, Bool.not_eq_false'] at h4
    have := List.all_eq_true.mp h4 l hl
    simpa using this

/-- C8: compute_landuses raises an error and writes no results whenever the
data layer has not been assigned to a network, or the land-use label sequence
length mismatches the data, or a mixed-use metric name is unrecognised, or an
accessibility label is unrecognised. -/
theorem compute_landuses_error_cases (node_map : List NodeRecord)
    (data_map : List DataRecord) (distances : List ℤ) (betas : List ℝ)
    (landuse_labels : List String) (mixed_use_metrics : List String)
    (accessibility_labels : List String) (qs : List ℚ)
    (cl_disparity_wt_matrix : Option (ℕ → ℕ → ℝ))
    (spt_dist : ℕ → List (WithTop ℝ))
    (h : data_map.all (fun d => d.nearest_assigned.isNone) = true ∨
      landuse_labels.length ≠ data_map.length ∨
      (∃ m ∈ mixed_use_metrics, m ∉ hill_metric_names ∧ m ∉ other_metric_names) ∨
      (∃ l ∈ accessibility_labels, l ∉ (encode_categorical landuse_labels).1)) :
    ∃ msg, compute_landuses node_map data_map distances betas landuse_labels
      mixed_use_metrics accessibility_labels qs cl_disparity_wt_matrix spt_dist =
        Except.error msg := by
  rcases hchk : landuse_checks data_map landuse_labels mixed_use_metrics
      accessibility_labels cl_disparity_wt_matrix with _ | msg
  · exfalso
    obtain ⟨c1, c2, c3, c4⟩ := landuse_checks_none_conditions data_map landuse_labels
      mixed_use_metrics accessibility_labels cl_disparity_wt_matrix hchk
    rcases h with h | h | h | h
    · rw [h] at c1
      exact Bool.noConfusion c1
    · exact h c2
    · obtain ⟨m, hm, hnh, hno⟩ := h
      rcases c3 m hm with hh | hh
      · exact hnh hh
      · exact hno hh
    · obtain ⟨l, hl, hnl⟩ := h
      exact hnl (c4 l hl)
  · refine ⟨msg, ?_⟩
    unfold compute_landuses
    rw [hchk]

theorem compute_landuses_error_cases_witness :
    (([⟨0, 0, true, none, none, none⟩] : List DataRecord).all
        (fun d => d.nearest_assigned.isNone) = true ∨
      ["a"].length ≠ ([⟨0, 0, true, none, none, none⟩] : List DataRecord).length ∨
      (∃ m ∈ ["shannon"], m ∉ hill_metric_names ∧ m ∉ other_metric_names) ∨
      (∃ l ∈ ([] : List String), l ∉ (encode_categorical ["a"]).1)) ∧
    (∃ msg, compute_landuses [] [⟨0, 0, true, none, none, none⟩] [] [] ["a"]
      ["shannon"] [] [] none (fun _ => []) = Except.error msg) :=
  ⟨Or.inl (by decide),
   compute_landuses_error_cases [] [⟨0, 0, true, none, none, none⟩] [] [] ["a"]
     ["shannon"] [] [] none (fun _ => []) (Or.inl (by decide))⟩

lemma getD_eq_get {α : Type} (l : List α) (d : α) (i : ℕ) (hi : i < l.length) :
    l.getD i d = l.get ⟨i, hi⟩ := by
  rw [List.getD_eq_getElem?_getD, List.getElem?_eq_getElem hi]
  rfl

lemma assoc_get_marshal_from {α β : Type} [DecidableEq α] (f : ℕ → β) :
    ∀ (keys : List α) (i0 ki : ℕ), keys.Nodup → ∀ hki : ki < keys.length,
      assoc_get (keys.get ⟨ki, hki⟩) (marshal_from f keys i0) = some (f (i0 + ki)) := by
  intro keys
  induction keys with
  | nil =>
    intro i0 ki hnd hki
    simp at hki
  | cons k t ih =>
    intro i0 ki hnd hki
    cases ki with
    | zero =>
      show assoc_get k ((k, f i0) :: marshal_from f t (i0 + 1)) = some (f (i0 + 0))
      simp [assoc_get]
    | succ ki =>
      have hki' : ki < t.length := Nat.lt_of_succ_lt_succ hki
      have hget : (k :: t).get ⟨ki + 1, hki⟩ = t.get ⟨ki, hki'⟩ := rfl
      rw [hget]
      have hne : ¬ k = t.get ⟨ki, hki'⟩ := by
        intro heq
        exact (List.nodup_cons.mp hnd).1 (heq ▸ List.get_mem t ki hki')
      show assoc_get (t.get ⟨ki, hki'⟩) ((k, f i0) :: marshal_from f t (i0 + 1)) =
        some (f (i0 + (ki + 1)))
      rw [show assoc_get (t.get ⟨ki, hki'⟩) ((k, f i0) :: marshal_from f t (i0 + 1)) =
          if k = t.get ⟨ki, hki'⟩ then some (f i0)
          else assoc_get (t.get ⟨ki, hki'⟩) (marshal_from f t (i0 + 1)) from rfl]
      rw [if_neg hne]
      rw [ih (i0 + 1) ki (List.nodup_cons.mp hnd).2 hki']
      rw [show i0 + 1 + ki = i0 + (ki + 1) from by omega]

lemma assoc_get_marshal_getD {α β : Type} [DecidableEq α] (keys : List α) (f : ℕ → β)
    (ki : ℕ) (d : α) (hnd : keys.Nodup) (hki : ki < keys.length) :
    assoc_get (keys.getD ki d) (marshal keys f) = some (f ki) := by
  rw [getD_eq_get keys d ki hki]
  have := assoc_get_marshal_from f keys 0 ki hnd hki
  simpa [marshal] using this

lemma assoc_get_marshal_singleton {α β : Type} [DecidableEq α] (k : α) (f : ℕ → β) :
    assoc_get k (marshal [k] f) = some (f 0) := by
  simp [marshal, marshal_from, assoc_get]

/-- C1: computing land-uses through the facade with the single mixed-use
metric hill_branch_wt and any qs writes, for every q in qs and every distance
threshold, a mixed_uses hill_branch_wt tensor entry exactly equal to the
output of the independent land-use aggregation kernel local_landuses run on
the same packed node and data arrays with mixed_use_hill_keys = [1].  This
holds for every network and assigned data layer, in particular for the mock
network and mock land-use data of the test scenario. -/
theorem compute_landuses_hill_branch_wt_matches_reference
    (node_map : List NodeRecord) (data_map : List DataRecord) (distances : List ℤ)
    (betas : List ℝ) (landuse_labels : List String) (qs : List ℚ)
    (spt_dist : ℕ → List (WithTop ℝ))
    (hassign : data_map.all (fun d => d.nearest_assigned.isNone) = false)
    (hlen : landuse_labels.length = data_map.length)
    (hqnd : qs.Nodup) (hdnd : distances.Nodup)
    (qi : ℕ) (hqi : qi < qs.length) (di : ℕ) (hdi : di < distances.length) :
    ∃ M, compute_landuses node_map data_map distances betas landuse_labels
        ["hill_branch_wt"] [] qs none spt_dist = Except.ok M ∧
      mu_hill_lookup M "hill_branch_wt" (qs.getD qi 0) (distances.getD di 0) =
        ((((local_landuses node_map data_map (encode_categorical landuse_labels).2
            distances betas qs [1] [] [] (fun _ _ => 0) spt_dist).1).getD 0 []).getD qi
          []).getD di [] := by
  have hchk : landuse_checks data_map landuse_labels ["hill_branch_wt"] [] none = none := by
    unfold landuse_checks
    rw [if_neg (by rw [hassign]; exact Bool.false_ne_true)]
    rw [if_neg (by simp [hlen])]
    rw [if_neg (by decide)]
    rw [if_neg (by simp)]
    rw [if_neg (by decide)]
    rw [if_neg (by decide)]
  refine ⟨landuse_results node_map data_map distances betas landuse_labels
      ["hill_branch_wt"] [] qs none spt_dist, ?_, ?_⟩
  · unfold compute_landuses
    rw [hchk]
  · have hfilter_hill : (["hill_branch_wt"] : List String).filter
        (fun m => hill_metric_names.contains m) = ["hill_branch_wt"] := by decide
    have hfilter_other : (["hill_branch_wt"] : List String).filter
        (fun m => other_metric_names.contains m) = [] := by decide
    have hmap_hill : (["hill_branch_wt"] : List String).map
        (fun m => hill_metric_names.indexOf m) = [1] := by decide
    dsimp only [mu_hill_lookup, landuse_results]
    rw [hfilter_hill, hfilter_other, hmap_hill]
    rw [assoc_get_marshal_singleton]
    simp only [Option.getD_some]
    rw [assoc_get_marshal_getD qs _ qi 0 hqnd hqi]
    simp only [Option.getD_some]
    rw [assoc_get_marshal_getD distances _ di 0 hdnd hdi]
    simp only [Option.getD_some]
    rfl

theorem compute_landuses_hill_branch_wt_matches_reference_witness :
    (([⟨0, 0, true, none, some 0, none⟩] : List DataRecord).all
        (fun d => d.nearest_assigned.isNone) = false) ∧
    (["a"].length = ([⟨0, 0, true, none, some 0, none⟩] : List DataRecord).length) ∧
    ([(0 : ℚ), 1, 2].Nodup) ∧ ([(100 : ℤ)].Nodup) ∧
    (∃ M, compute_landuses [⟨0, 0, true, false, 0⟩] [⟨0, 0, true, none, some 0, none⟩]
        [100] [(0 : ℝ)] ["a"] ["hill_branch_wt"] [] [0, 1, 2] none (fun _ => []) =
          Except.ok M ∧
      mu_hill_lookup M "hill_branch_wt" ([(0 : ℚ), 1, 2].getD 0 0)
          ([(100 : ℤ)].getD 0 0) =
        ((((local_landuses [⟨0, 0, true, false, 0⟩] [⟨0, 0, true, none, some 0, none⟩]
            (encode_categorical ["a"]).2 [100] [(0 : ℝ)] [0, 1, 2] [1] [] []
            (fun _ _ => 0) (fun _ => [])).1).getD 0 []).getD 0 []).getD 0 []) :=
  ⟨by decide, by decide, by decide, by decide,
   compute_landuses_hill_branch_wt_matches_reference [⟨0, 0, true, false, 0⟩]
     [⟨0, 0, true, none, some 0, none⟩] [100] [(0 : ℝ)] ["a"] [0, 1, 2] (fun _ => [])
     (by decide) (by decide) (by decide) (by decide) 0 (by decide) 0 (by decide)⟩
